import Mathlib

/-!
Verification of the similarity-experiment trial engine.

The definitions below are a shallow embedding of the repository's code:

* `generateTrials`, `shuffleArray`, `initTrials` embed `src/experiment.js`
  (the trial sequencer, its Fisher-Yates shuffle, and the `init` guard).
  `Math.random()`-driven choices are made explicit parameters: each shuffle
  takes a stream `ρ : Nat → Nat` of raw draws (reduced `mod` the live range,
  exactly the range `Math.floor(Math.random()*(i+1))` produces), the catch
  product is picked by an index draw, and each per-trial left/right flip is
  a boolean from a stream `coins : Nat → Bool`.  JavaScript string order
  (used by `Array.prototype.sort()` on id strings) is modelled by the
  lexicographic order on `String`, which agrees with it on ASCII ids.
* `Phase`/`Event`/`step`, `recordTrialToServer`, `nextClick` embed the
  session state machine wired up in `setupEventListeners`
  (`src/experiment.js`): the `nextBtn` click handler, the `popstate`
  handler, and the fire-and-forget persistence call.
* `trialHandler` embeds the `POST /api/trial` endpoint
  (`src/unnamed/part_002`): JSON body values — scalars, arrays and
  objects — are modelled by `JSVal` (JSON cannot carry `NaN`/`Infinity`,
  so numbers are exact rationals), JavaScript truthiness by `falsy`, and
  the regex test's ToString coercion of its argument by `uuidTest`.
-/

/-- A stimulus item as loaded from the stimulus catalog JSON
(`data.products` in `src/experiment.js`). -/
structure Product where
  id : String
  name : String
  description : String
  price : String
  image : String
deriving DecidableEq, Repr

/-- An element of the `pairs` / `allTrials` working lists built inside
`generateTrials`: `{ products: [fst, snd], isCatchTrial }`. -/
structure PairEntry where
  fst : Product
  snd : Product
  isCatchTrial : Bool
deriving DecidableEq, Repr

/-- A formatted trial as produced by the final `map` of `generateTrials`
(`src/experiment.js` lines 241-266). -/
structure Trial where
  left : Product
  right : Product
  pairId : String
  position : String
  isCatchTrial : Bool
deriving DecidableEq, Repr

/-- JavaScript string comparison `a <= b` as run by the default
`Array.prototype.sort()` comparator: lexicographic on the code-unit
sequences, modelled on the character lists. -/
def leCU : List Char → List Char → Bool
  | [], _ => true
  | _ :: _, [] => false
  | a :: as, b :: bs => if a = b then leCU as bs else decide (a < b)

/-- JavaScript `[a, b].sort()` on two strings: the sorted pair. -/
def sort2 (a b : String) : String × String :=
  if leCU a.data b.data then (a, b) else (b, a)

/-- JavaScript `[a, b].sort().join('_')`: the canonical pair key. -/
def joinSorted (a b : String) : String :=
  (sort2 a b).1 ++ "_" ++ (sort2 a b).2

/-- The nested `for i / for j (j = i+1 …)` loops of `generateTrials`
(lines 219-224): all unordered pairs of catalog items, no self-pairs,
each tagged `isCatchTrial: false`. -/
def allPairs : List Product → List PairEntry
  | [] => []
  | p :: rest => rest.map (fun q => ⟨p, q, false⟩) ++ allPairs rest

/-- Models `[array[i], array[j]] = [array[j], array[i]]`: exchange positions `i`
and `j`; out-of-range indices leave the list unchanged (never hit by the
shuffle loop). -/
def listSwap (l : List α) (i j : Nat) : List α :=
  match l.get? i, l.get? j with
  | some x, some y => (l.set i y).set j x
  | _, _ => l

/-- The loop body chain of `shuffleArray`: `i` runs from `n` down to `1`,
swapping position `i` with `ρ i % (i+1)`, which ranges over `0..i` exactly
as `Math.floor(Math.random() * (i + 1))` does. -/
def shuffleGo (ρ : Nat → Nat) : Nat → List α → List α
  | 0, l => l
  | i + 1, l => shuffleGo ρ i (listSwap l (i + 1) (ρ (i + 1) % (i + 2)))

/-- Embeds `shuffleArray` (`src/experiment.js` lines 269-274): in-place
Fisher-Yates shuffle driven by the draw stream `ρ`. -/
def shuffleArray (ρ : Nat → Nat) (l : List α) : List α :=
  shuffleGo ρ (l.length - 1) l

/-- The body of the `allTrials.map` callback (lines 241-266) for one entry,
with the `Math.random() < 0.5` outcome passed in as `coin`
(`coin = true` models `aOnLeft`). -/
def mkTrial (coin : Bool) (e : PairEntry) : Trial :=
  let productA := e.fst
  let productB := e.snd
  let pairId := if e.isCatchTrial then productA.id ++ "_" ++ productA.id
    else joinSorted productA.id productB.id
  let aOnLeft := coin
  let leftProduct := if aOnLeft then productA else productB
  let rightProduct := if aOnLeft then productB else productA
  let sortedFirst := (sort2 productA.id productB.id).1
  let pos := if leftProduct.id = sortedFirst then "AB" else "BA"
  ⟨leftProduct, rightProduct, pairId, pos, e.isCatchTrial⟩

/-- Models `allTrials.map(trial => …)` where every element consumes one fresh coin
flip from the stream, in order. -/
def mapTrials (coins : Nat → Bool) : List PairEntry → List Trial
  | [] => []
  | e :: es => mkTrial (coins 0) e :: mapTrials (fun i => coins (i + 1)) es

/-- The pair key an entry is given by the `map` callback, as a function of
the entry alone (the coin flip does not enter into it). -/
def entryPairId (e : PairEntry) : String :=
  if e.isCatchTrial then e.fst.id ++ "_" ++ e.fst.id
  else joinSorted e.fst.id e.snd.id

/-- Embeds `generateTrials` (`src/experiment.js` lines 216-267).  `ρ1`, `ρ2` drive
the two shuffles, `pick` the catch-product draw
(`Math.floor(Math.random() * products.length)`, modelled as
`pick % products.length`), and `coins` the per-trial left/right flips.
`nPairs` stands for `CONFIG.N_PAIRS`.  The `getD` default is unreachable
whenever the catalog is nonempty. -/
def generateTrials (ρ1 ρ2 : Nat → Nat) (pick : Nat) (coins : Nat → Bool)
    (products : List Product) (nPairs : Nat) : List Trial :=
  let pairs := allPairs products
  let shuffled := shuffleArray ρ1 pairs
  let regularTrials := shuffled.take nPairs
  let catchProduct := products.getD (pick % products.length) ⟨"", "", "", "", ""⟩
  let catchTrial : PairEntry := ⟨catchProduct, catchProduct, true⟩
  let allTrials := regularTrials ++ [catchTrial]
  let allShuffled := shuffleArray ρ2 allTrials
  mapTrials coins allShuffled

/-- The configuration-error vocabulary of the specification.  The code of
`init` only ever signals the first kind; no code path in the repository
raises the second. -/
inductive ConfigError where
  | insufficientStimuli
  | invalidConfiguration
deriving DecidableEq, Repr

/-- The sequence-generation part of `init` (`src/experiment.js` lines
195-213): after the catalog is loaded, a catalog of fewer than 2 products
aborts with a blocking error message (`alert` + early return, modelled as
the configuration error) before any trial is generated; otherwise
`generateTrials` runs. -/
def initTrials (ρ1 ρ2 : Nat → Nat) (pick : Nat) (coins : Nat → Bool)
    (products : List Product) (nPairs : Nat) : Except ConfigError (List Trial) :=
  if products.length < 2 then .error .insufficientStimuli
  else .ok (generateTrials ρ1 ρ2 pick coins products nPairs)

/-- The claim’s notion of "the lexicographically smaller id of the pair",
under the same
JavaScript string order. -/
def smallerId (l r : String) : String :=
  if leCU l.data r.data then l else r

/-- The claim's re-derivation of the position code purely from
`(leftItem.id, rightItem.id)`: `"AB"` exactly when the left id is the
lexicographically smaller id of the pair. -/
def specDerivedPosition (l r : String) : String :=
  if l = smallerId l r then "AB" else "BA"

/-- Outcome of the `fetch` network call to the trial endpoint: the promise
either resolves or rejects. -/
inductive NetOutcome where
  | success
  | failure
deriving DecidableEq, Repr

/-- The raw `fetch` call inside `recordTrialToServer`: a rejected promise
is an exception at the `await`. -/
def fetchTrial (o : NetOutcome) : Except String Unit :=
  match o with
  | .success => .ok ()
  | .failure => .error "NetworkError"

/-- Embeds `recordTrialToServer` (`src/experiment.js` lines 123-143):
`try { await fetch(…) } catch (e) { console.error(…) }`.  The catch
swallows the rejection, so the function always returns normally; the
boolean records whether a failure was logged. -/
def recordTrialToServer (o : NetOutcome) : Except String Bool :=
  match fetchTrial o with
  | .ok _ => .ok false
  | .error _ => .ok true

/-- Session phase: `NotStarted -> InProgress(trialIndex) -> Finished`. -/
inductive Phase where
  | notStarted
  | inProgress (trialIndex : Nat)
  | finished
deriving DecidableEq, Repr

/-- The events that drive the session state machine: the Start button, a
`nextBtn` click carrying the persistence call's network outcome, and a
browser back-navigation (`popstate`). -/
inductive Event where
  | start
  | recordedResponse (o : NetOutcome)
  | popstate
deriving DecidableEq, Repr

/-- The `nextBtn` click handler (`src/experiment.js` lines 369-379):
`await recordResponse()` (which awaits `recordTrialToServer`), then
`currentTrial++`, then either the next trial or the demographics page
(the `Finished` phase).  An uncaught rejection of the awaited call would
abort the handler before the increment — the `.error` arm. -/
def nextClick (len : Nat) (o : NetOutcome) (i : Nat) : Except String Phase :=
  match recordTrialToServer o with
  | .error e => .error e
  | .ok _ => .ok (if i + 1 < len then .inProgress (i + 1) else .finished)

/-- The session state machine of `setupEventListeners`: Start shows trial 0;
a `nextBtn` click runs `nextClick` (an aborted handler would leave the
index untouched); the `popstate` handler (lines 408-412) only re-pushes the
history entry and never touches `currentTrial`, so every other event leaves
the phase unchanged. -/
def step (len : Nat) (s : Phase) (e : Event) : Phase :=
  match s, e with
  | .notStarted, .start => .inProgress 0
  | .inProgress i, .recordedResponse o =>
    match nextClick len o i with
    | .ok s' => s'
    | .error _ => .inProgress i
  | _, _ => s

mutual

/-- A JSON-derived JavaScript value as it appears after destructuring
`req.body` (a missing key destructures to `undefined`).  JSON cannot
encode `NaN` or the infinities, so numbers are exact rationals; JSON
arrays carry their elements.  A JSON object value is collapsed to the
single constructor `obj`: the handler performs no operation that looks
inside one — it is truthy, of JavaScript type object, never strictly
equal to a string, and coerces to the fixed string partnered to plain
objects — so its fields cannot influence any result. -/
inductive JSVal where
  | undef
  | null
  | bool (b : Bool)
  | num (q : Rat)
  | str (s : String)
  | arr (elems : JSArr)
  | obj

/-- Element list of a JSON array value (a mutual companion of `JSVal`, so
that the functions below are plain structural recursions). -/
inductive JSArr where
  | nil
  | cons (hd : JSVal) (tl : JSArr)

end

/-- Matches `[0-9a-f]` under the regex's `/i` flag. -/
def isHexDigit (c : Char) : Bool :=
  c.isDigit || ('a' ≤ c && c ≤ 'f') || ('A' ≤ c && c ≤ 'F')

/-- The endpoint's UUID regex
`/^[0-9a-f]{8}-[0-9a-f]{4}-[0-9a-f]{4}-[0-9a-f]{4}-[0-9a-f]{12}$/i`
on a string: 36 characters, dashes at offsets 8, 13, 18, 23, hex digits
everywhere else. -/
def isUuid (s : String) : Bool :=
  let cs := s.data
  cs.length = 36 && (List.range 36).all fun i =>
    if i = 8 || i = 13 || i = 18 || i = 23 then cs.getD i ' ' = '-'
    else isHexDigit (cs.getD i ' ')

mutual

/-- Whether the ToString coercion of a JSON array — its elements coerced
and joined with commas — matches the UUID pattern.  A join of two or more
elements contains a comma, which the pattern's character classes exclude,
and the empty join is the empty string, so only a singleton can match,
via its element's coercion. -/
def uuidTestJoin : JSArr → Bool
  | .cons v .nil => uuidTestElem v
  | _ => false

/-- Whether the coercion of a single array element matches the UUID
pattern.  Inside a join, `null` and `undefined` coerce to the empty
string (never a match); the other cases coerce as in `uuidTest`. -/
def uuidTestElem : JSVal → Bool
  | .undef => false
  | .null => false
  | .str s => isUuid s
  | .arr l => uuidTestJoin l
  | _ => false

end

/-- The `catchProduct` chosen by `generateTrials` (line 231). -/
def catchProductOf (pick : Nat) (products : List Product) : Product :=
  products.getD (pick % products.length) ⟨"", "", "", "", ""⟩

/-- The `catchTrial` entry built by `generateTrials` (line 232). -/
def catchEntry (pick : Nat) (products : List Product) : PairEntry :=
  ⟨catchProductOf pick products, catchProductOf pick products, true⟩

/-- A two-item concrete catalog used to evaluate the definitions. -/
def itemA : Product := ⟨"A", "", "", "", ""⟩

/-- Second item of the two-item concrete catalog. -/
def itemB : Product := ⟨"B", "", "", "", ""⟩

/-- Concrete catalog item whose id contains no underscore. -/
def itemUa : Product := ⟨"a", "", "", "", ""⟩

/-- Concrete catalog item whose id contains an underscore (`"b_c"`). -/
def itemUbc : Product := ⟨"b_c", "", "", "", ""⟩

/-- Concrete catalog item whose id contains an underscore (`"a_b"`). -/
def itemUab : Product := ⟨"a_b", "", "", "", ""⟩

/-- Concrete catalog item whose id contains no underscore. -/
def itemUc : Product := ⟨"c", "", "", "", ""⟩

theorem leCU_refl : ∀ as : List Char, leCU as as = true
  | [] => rfl
  | _ :: as => by simp [leCU, leCU_refl as]

theorem leCU_total : ∀ as bs : List Char, leCU as bs = false → leCU bs as = true
  | [], _, h => by simp [leCU] at h
  | _ :: _, [], _ => rfl
  | a :: as, b :: bs, h => by
    by_cases hab : a = b
    · subst hab
      simp only [leCU, if_pos rfl] at h ⊢
      exact leCU_total as bs h
    · simp only [leCU, if_neg hab, decide_eq_false_iff_not, not_lt] at h
      simp only [leCU, if_neg (Ne.symm hab), decide_eq_true_eq]
      exact lt_of_le_of_ne h (Ne.symm hab)

theorem leCU_antisymm : ∀ as bs : List Char,
    leCU as bs = true → leCU bs as = true → as = bs
  | [], [], _, _ => rfl
  | [], _ :: _, _, h => by simp [leCU] at h
  | _ :: _, [], h, _ => by simp [leCU] at h
  | a :: as, b :: bs, h₁, h₂ => by
    by_cases hab : a = b
    · subst hab
      simp only [leCU, if_pos rfl] at h₁ h₂
      rw [leCU_antisymm as bs h₁ h₂]
    · simp only [leCU, if_neg hab, decide_eq_true_eq] at h₁
      simp only [leCU, if_neg (Ne.symm hab), decide_eq_true_eq] at h₂
      exact absurd (h₁.trans h₂) (lt_irrefl a)

theorem string_eq_of_data_eq {a b : String} (h : a.data = b.data) : a = b := by
  cases a; cases b; exact congrArg String.mk h

theorem sort2_cases (a b : String) : sort2 a b = (a, b) ∨ sort2 a b = (b, a) := by
  unfold sort2
  split <;> [exact Or.inl rfl; exact Or.inr rfl]

theorem sort2_fst (a b : String) :
    (sort2 a b).1 = if leCU a.data b.data then a else b := by
  unfold sort2; split <;> rfl

theorem sort2_snd (a b : String) :
    (sort2 a b).2 = if leCU a.data b.data then b else a := by
  unfold sort2; split <;> rfl

theorem sort2_fst_comm (a b : String) : (sort2 a b).1 = (sort2 b a).1 := by
  rw [sort2_fst, sort2_fst]
  by_cases hab : leCU a.data b.data
  · by_cases hba : leCU b.data a.data
    · simp only [hab, hba, if_pos]
      exact string_eq_of_data_eq (leCU_antisymm _ _ hab hba)
    · simp [hab, hba]
  · have hba := leCU_total _ _ (Bool.not_eq_true _ ▸ hab)
    simp [hab, hba]

theorem sort2_self (a : String) : sort2 a a = (a, a) := by
  unfold sort2; rw [if_pos (leCU_refl _)]

theorem smallerId_eq_sort2_fst (a b : String) : smallerId a b = (sort2 a b).1 := by
  rw [sort2_fst]; rfl

/-! ### The Fisher-Yates shuffle permutes its input -/

theorem listSwap_perm [DecidableEq α] (l : List α) (i j : Nat) :
    List.Perm (listSwap l i j) l := by
  unfold listSwap
  cases hi : l.get? i with
  | none => exact List.Perm.refl l
  | some x =>
    cases hj : l.get? j with
    | none => exact List.Perm.refl l
    | some y =>
      rw [List.get?_eq_getElem?] at hi hj
      obtain ⟨hi', hix⟩ := List.getElem?_eq_some_iff.1 hi
      obtain ⟨hj', hjy⟩ := List.getElem?_eq_some_iff.1 hj
      rcases eq_or_ne i j with rfl | hij
      · have hxy : x = y := by
          rw [hi] at hj
          exact Option.some.inj hj
        subst hxy
        show List.Perm ((l.set i x).set i x) l
        rw [List.set_set]
        have hll : l.set i x = l := List.ext_getElem? fun n => by
          rcases eq_or_ne i n with rfl | hin
          · rw [List.getElem?_set_self hi', hi]
          · rw [List.getElem?_set_ne hin]
        rw [hll]
      · rw [List.perm_iff_count]
        intro a
        have hjlen : j < (l.set i y).length := by simpa using hj'
        rw [List.count_set _ _ _ _ hjlen, List.count_set _ _ _ _ hi']
        have hset : (l.set i y).get ⟨j, hjlen⟩ = y := by
          rw [List.get_eq_getElem, List.getElem_set, if_neg hij]
          exact hjy
        rw [List.get_eq_getElem] at hset
        have hxmem : x ∈ l := hix ▸ List.getElem_mem hi'
        rw [hset, hix]
        by_cases hxa : x = a
        · have h1 : 1 ≤ l.count a := List.count_pos_iff.2 (hxa ▸ hxmem)
          by_cases hya : y = a <;> simp [hxa, hya] <;> omega
        · by_cases hya : y = a <;> simp [hxa, hya]

theorem shuffleGo_perm [DecidableEq α] (ρ : Nat → Nat) :
    ∀ (n : Nat) (l : List α), List.Perm (shuffleGo ρ n l) l
  | 0, _ => List.Perm.refl _
  | n + 1, l =>
    (shuffleGo_perm ρ n _).trans (listSwap_perm l (n + 1) (ρ (n + 1) % (n + 2)))

theorem shuffleArray_perm [DecidableEq α] (ρ : Nat → Nat) (l : List α) :
    List.Perm (shuffleArray ρ l) l :=
  shuffleGo_perm ρ _ l

/-! ### The formatting map -/

theorem mkTrial_isCatchTrial (c : Bool) (e : PairEntry) :
    (mkTrial c e).isCatchTrial = e.isCatchTrial := rfl

theorem mkTrial_pairId (c : Bool) (e : PairEntry) :
    (mkTrial c e).pairId = entryPairId e := rfl

theorem mkTrial_left (c : Bool) (e : PairEntry) :
    (mkTrial c e).left = if c then e.fst else e.snd := rfl

theorem mkTrial_right (c : Bool) (e : PairEntry) :
    (mkTrial c e).right = if c then e.snd else e.fst := rfl

theorem mkTrial_position_spec (c : Bool) (e : PairEntry) :
    (mkTrial c e).position =
      specDerivedPosition (mkTrial c e).left.id (mkTrial c e).right.id := by
  cases c with
  | true =>
    show (if e.fst.id = (sort2 e.fst.id e.snd.id).1 then "AB" else "BA") =
      specDerivedPosition e.fst.id e.snd.id
    rw [specDerivedPosition, smallerId_eq_sort2_fst]
  | false =>
    show (if e.snd.id = (sort2 e.fst.id e.snd.id).1 then "AB" else "BA") =
      specDerivedPosition e.snd.id e.fst.id
    rw [specDerivedPosition, smallerId_eq_sort2_fst, sort2_fst_comm]

theorem mapTrials_length (coins : Nat → Bool) :
    ∀ l : List PairEntry, (mapTrials coins l).length = l.length
  | [] => rfl
  | _ :: es => by simp [mapTrials, mapTrials_length _ es]

theorem mem_mapTrials {t : Trial} :
    ∀ {coins : Nat → Bool} {l : List PairEntry}, t ∈ mapTrials coins l →
      ∃ c e, e ∈ l ∧ t = mkTrial c e := by
  intro coins l
  induction l generalizing coins with
  | nil => intro h; cases h
  | cons e es ih =>
    intro h
    rcases List.mem_cons.1 h with h | h
    · exact ⟨coins 0, e, List.mem_cons_self _ _, h⟩
    · obtain ⟨c, e', he', ht⟩ := ih h
      exact ⟨c, e', List.mem_cons_of_mem _ he', ht⟩

theorem mapTrials_countP_catch (coins : Nat → Bool) :
    ∀ l : List PairEntry,
      (mapTrials coins l).countP (fun t => t.isCatchTrial) =
        l.countP (fun e => e.isCatchTrial)
  | [] => rfl
  | e :: es => by
    simp [mapTrials, List.countP_cons, mapTrials_countP_catch _ es,
      mkTrial_isCatchTrial]

theorem mapTrials_filter_pairId (coins : Nat → Bool) :
    ∀ l : List PairEntry,
      ((mapTrials coins l).filter (fun t => !t.isCatchTrial)).map Trial.pairId =
        (l.filter (fun e => !e.isCatchTrial)).map entryPairId
  | [] => rfl
  | e :: es => by
    cases hc : e.isCatchTrial <;>
      simp [mapTrials, List.filter_cons, hc, mkTrial_isCatchTrial,
        mkTrial_pairId, mapTrials_filter_pairId _ es]

/-! ### The pair enumeration -/

theorem length_allPairs :
    ∀ l : List Product, (allPairs l).length = Nat.choose l.length 2
  | [] => rfl
  | p :: rest => by
    simp [allPairs, length_allPairs rest, Nat.choose_succ_succ,
      Nat.choose_one_right, Nat.add_comm]

theorem mem_allPairs {e : PairEntry} :
    ∀ {l : List Product}, e ∈ allPairs l →
      e.fst ∈ l ∧ e.snd ∈ l ∧ e.isCatchTrial = false := by
  intro l
  induction l with
  | nil => intro h; cases h
  | cons p rest ih =>
    intro h
    rcases List.mem_append.1 h with h | h
    · obtain ⟨q, hq, rfl⟩ := List.mem_map.1 h
      exact ⟨List.mem_cons_self _ _, List.mem_cons_of_mem _ hq, rfl⟩
    · obtain ⟨h1, h2, h3⟩ := ih h
      exact ⟨List.mem_cons_of_mem _ h1, List.mem_cons_of_mem _ h2, h3⟩

theorem allPairs_id_ne :
    ∀ {l : List Product}, (l.map Product.id).Nodup →
      ∀ e ∈ allPairs l, e.fst.id ≠ e.snd.id := by
  intro l
  induction l with
  | nil => intro _ e he; cases he
  | cons p rest ih =>
    intro hn e he
    rw [List.map_cons, List.nodup_cons] at hn
    rcases List.mem_append.1 he with h | h
    · obtain ⟨q, hq, rfl⟩ := List.mem_map.1 h
      intro hid
      exact hn.1 (hid ▸ List.mem_map.2 ⟨q, hq, rfl⟩)
    · exact ih hn.2 e h

theorem sort2_eq_cases {a b c d : String} (h : sort2 a b = sort2 c d) :
    (a = c ∧ b = d) ∨ (a = d ∧ b = c) := by
  rcases sort2_cases a b with h1 | h1 <;> rcases sort2_cases c d with h2 | h2 <;>
    rw [h1, h2, Prod.mk.injEq] at h
  · exact Or.inl h
  · exact Or.inr h
  · exact Or.inr ⟨h.2, h.1⟩
  · exact Or.inl ⟨h.2, h.1⟩

theorem allPairs_sid_nodup :
    ∀ {l : List Product}, (l.map Product.id).Nodup →
      ((allPairs l).map (fun e => sort2 e.fst.id e.snd.id)).Nodup := by
  intro l
  induction l with
  | nil => intro _; exact List.nodup_nil
  | cons p rest ih =>
    intro hn
    rw [List.map_cons, List.nodup_cons] at hn
    show ((rest.map (fun q => (⟨p, q, false⟩ : PairEntry)) ++ allPairs rest).map
      (fun e => sort2 e.fst.id e.snd.id)).Nodup
    rw [List.map_append, List.map_map, List.nodup_append]
    refine ⟨?_, ih hn.2, ?_⟩
    · apply List.Nodup.map_on ?_ (hn.2.of_map)
      intro q1 hq1 q2 hq2 heq
      rcases sort2_eq_cases heq with ⟨_, hid⟩ | ⟨hp, _⟩
      · exact List.inj_on_of_nodup_map hn.2 hq1 hq2 hid
      · exact absurd (hp ▸ List.mem_map.2 ⟨q2, hq2, rfl⟩) hn.1
    · intro x hx hx'
      obtain ⟨q, hq, rfl⟩ := List.mem_map.1 hx
      obtain ⟨e, he, heq⟩ := List.mem_map.1 hx'
      obtain ⟨hef, hes, _⟩ := mem_allPairs he
      rcases sort2_eq_cases heq.symm with ⟨hp, _⟩ | ⟨hp, _⟩
      · exact hn.1 (hp ▸ List.mem_map.2 ⟨e.fst, hef, rfl⟩)
      · exact hn.1 (hp ▸ List.mem_map.2 ⟨e.snd, hes, rfl⟩)

/-! ### Injectivity of the underscore-joined pair key -/

theorem underscore_chars_inj :
    ∀ (xs ys : List Char) {b d : List Char}, '_' ∉ xs → '_' ∉ ys →
      xs ++ '_' :: b = ys ++ '_' :: d → xs = ys ∧ b = d
  | [], [], _, _, _, _, h => ⟨rfl, (List.cons.injEq .. ▸ h).2⟩
  | [], y :: ys, _, _, _, hy, h => by
    simp only [List.nil_append, List.cons_append, List.cons.injEq] at h
    obtain ⟨h1, -⟩ := h
    subst h1
    exact absurd (List.mem_cons_self _ _) hy
  | x :: xs, [], _, _, hx, _, h => by
    simp only [List.nil_append, List.cons_append, List.cons.injEq] at h
    obtain ⟨h1, -⟩ := h
    subst h1
    exact absurd (List.mem_cons_self _ _) hx
  | x :: xs, y :: ys, b, d, hx, hy, h => by
    simp only [List.cons_append, List.cons.injEq] at h
    obtain ⟨h1, h2⟩ := underscore_chars_inj xs ys
      (fun hm => hx (List.mem_cons_of_mem _ hm))
      (fun hm => hy (List.mem_cons_of_mem _ hm)) h.2
    exact ⟨by rw [h.1, h1], h2⟩

theorem underscore_join_inj {a b c d : String}
    (ha : '_' ∉ a.data) (hc : '_' ∉ c.data)
    (h : a ++ "_" ++ b = c ++ "_" ++ d) : a = c ∧ b = d := by
  have hd : a.data ++ '_' :: b.data = c.data ++ '_' :: d.data := by
    have := congrArg String.data h
    simpa [String.data_append] using this
  obtain ⟨h1, h2⟩ := underscore_chars_inj _ _ ha hc hd
  exact ⟨string_eq_of_data_eq h1, string_eq_of_data_eq h2⟩

theorem entryPairId_of_not_catch {e : PairEntry} (h : e.isCatchTrial = false) :
    entryPairId e =
      (sort2 e.fst.id e.snd.id).1 ++ "_" ++ (sort2 e.fst.id e.snd.id).2 := by
  rw [entryPairId, if_neg (by simp [h]), joinSorted]

theorem allPairs_keys_nodup {l : List Product}
    (hn : (l.map Product.id).Nodup)
    (hu : ∀ p ∈ l, '_' ∉ p.id.data) :
    ((allPairs l).map entryPairId).Nodup := by
  have hfree : ∀ e ∈ allPairs l, '_' ∉ (sort2 e.fst.id e.snd.id).1.data ∧
      '_' ∉ (sort2 e.fst.id e.snd.id).2.data := by
    intro e he
    obtain ⟨h1, h2, _⟩ := mem_allPairs he
    rcases sort2_cases e.fst.id e.snd.id with h | h <;> rw [h] <;>
      exact ⟨hu _ ‹_›, hu _ ‹_›⟩
  have hrw : (allPairs l).map entryPairId =
      ((allPairs l).map (fun e => sort2 e.fst.id e.snd.id)).map
        (fun pr => pr.1 ++ "_" ++ pr.2) := by
    rw [List.map_map]
    apply List.map_congr_left
    intro e he
    exact entryPairId_of_not_catch (mem_allPairs he).2.2
  rw [hrw]
  apply (allPairs_sid_nodup hn).map_on
  intro pr1 h1 pr2 h2 heq
  obtain ⟨e1, he1, hpr1⟩ := List.mem_map.1 h1
  obtain ⟨e2, he2, hpr2⟩ := List.mem_map.1 h2
  obtain ⟨hq1, hq2⟩ := underscore_join_inj
    (hpr1 ▸ (hfree e1 he1).1) (hpr2 ▸ (hfree e2 he2).1) heq
  exact Prod.ext hq1 hq2

/-! ### Structure of the generated sequence -/

theorem generateTrials_eq (ρ1 ρ2 : Nat → Nat) (pick : Nat) (coins : Nat → Bool)
    (products : List Product) (nPairs : Nat) :
    generateTrials ρ1 ρ2 pick coins products nPairs =
      mapTrials coins (shuffleArray ρ2
        ((shuffleArray ρ1 (allPairs products)).take nPairs ++
          [catchEntry pick products])) := rfl

theorem mem_regular {ρ1 : Nat → Nat} {products : List Product} {nPairs : Nat}
    {e : PairEntry} (h : e ∈ (shuffleArray ρ1 (allPairs products)).take nPairs) :
    e ∈ allPairs products :=
  (shuffleArray_perm ρ1 _).subset (List.take_subset _ _ h)

theorem generateTrials_entry_decomp {ρ1 ρ2 : Nat → Nat} {pick : Nat}
    {coins : Nat → Bool} {products : List Product} {nPairs : Nat} {t : Trial}
    (ht : t ∈ generateTrials ρ1 ρ2 pick coins products nPairs) :
    ∃ c e, t = mkTrial c e ∧
      ((e ∈ allPairs products ∧ e.isCatchTrial = false) ∨
        e = catchEntry pick products) := by
  rw [generateTrials_eq] at ht
  obtain ⟨c, e, he, rfl⟩ := mem_mapTrials ht
  refine ⟨c, e, rfl, ?_⟩
  have hm := (shuffleArray_perm ρ2 _).subset he
  rcases List.mem_append.1 hm with h | h
  · have h' := mem_regular h
    exact Or.inl ⟨h', (mem_allPairs h').2.2⟩
  · exact Or.inr (List.mem_singleton.1 h)

theorem generateTrials_length (ρ1 ρ2 : Nat → Nat) (pick : Nat)
    (coins : Nat → Bool) (products : List Product) (nPairs : Nat) :
    (generateTrials ρ1 ρ2 pick coins products nPairs).length =
      min nPairs (Nat.choose products.length 2) + 1 := by
  rw [generateTrials_eq, mapTrials_length,
    (shuffleArray_perm ρ2 _).length_eq, List.length_append, List.length_take,
    (shuffleArray_perm ρ1 _).length_eq, length_allPairs]
  rfl

theorem generateTrials_catch_ids {ρ1 ρ2 : Nat → Nat} {pick : Nat}
    {coins : Nat → Bool} {products : List Product} {nPairs : Nat} {t : Trial}
    (ht : t ∈ generateTrials ρ1 ρ2 pick coins products nPairs)
    (hc : t.isCatchTrial = true) : t.left.id = t.right.id := by
  obtain ⟨c, e, rfl, hcase⟩ := generateTrials_entry_decomp ht
  rw [mkTrial_isCatchTrial] at hc
  rcases hcase with ⟨_, hf⟩ | rfl
  · rw [hf] at hc; cases hc
  · cases c <;> rfl

/-! ### The claims -/

/-- C1: for every trial in a generated sequence, including the catch trial,
the stored `position` field agrees with re-deriving it purely from
`(leftItem.id, rightItem.id)` — `"AB"` exactly when the left id is the
lexicographically smaller id of the pair — and the catch trial, whose two
ids are equal, gets `position = "AB"`. -/
theorem position_consistent (ρ1 ρ2 : Nat → Nat) (pick : Nat)
    (coins : Nat → Bool) (products : List Product) (nPairs : Nat) :
    ∀ t ∈ generateTrials ρ1 ρ2 pick coins products nPairs,
      t.position = specDerivedPosition t.left.id t.right.id ∧
        (t.isCatchTrial = true → t.position = "AB") := by
  intro t ht
  obtain ⟨c, e, rfl, hcase⟩ := generateTrials_entry_decomp ht
  refine ⟨mkTrial_position_spec c e, ?_⟩
  intro hcatch
  rw [mkTrial_isCatchTrial] at hcatch
  rcases hcase with ⟨_, hf⟩ | rfl
  · rw [hf] at hcatch; cases hcatch
  · cases c <;> simp [mkTrial, catchEntry, sort2_self]

/-- C1 witness: the consistency holds at the head trial of a concrete
two-item run. -/
theorem position_consistent_witness :
    (⟨itemA, itemA, "A_A", "AB", true⟩ : Trial) ∈
        generateTrials (fun _ => 0) (fun _ => 0) 0 (fun _ => true)
          [itemA, itemB] 1 ∧
      (Trial.position ⟨itemA, itemA, "A_A", "AB", true⟩ =
        specDerivedPosition itemA.id itemA.id ∧
        (true = true → Trial.position ⟨itemA, itemA, "A_A", "AB", true⟩ = "AB")) :=
  ⟨by decide, position_consistent (fun _ => 0) (fun _ => 0) 0 (fun _ => true)
    [itemA, itemB] 1 ⟨itemA, itemA, "A_A", "AB", true⟩ (by decide)⟩

/-- C3: for a catalog of at least 2 items and any `k ≤ C(n, 2)`, the
generated sequence has exactly `k + 1` trials. -/
theorem sequence_length (ρ1 ρ2 : Nat → Nat) (pick : Nat)
    (coins : Nat → Bool) (products : List Product) (nPairs : Nat)
    (_h2 : 2 ≤ products.length)
    (hk : nPairs ≤ Nat.choose products.length 2) :
    (generateTrials ρ1 ρ2 pick coins products nPairs).length = nPairs + 1 := by
  rw [generateTrials_length, Nat.min_eq_left hk]

/-- C3 witness: a two-item catalog with `k = 1` yields 2 trials (and with
the same hypotheses `k = 0` would yield the catch trial alone). -/
theorem sequence_length_witness :
    2 ≤ ([itemA, itemB] : List Product).length ∧
      1 ≤ Nat.choose ([itemA, itemB] : List Product).length 2 ∧
      (generateTrials (fun _ => 0) (fun _ => 0) 0 (fun _ => true)
        [itemA, itemB] 1).length = 1 + 1 :=
  ⟨by decide, by decide,
    sequence_length (fun _ => 0) (fun _ => 0) 0 (fun _ => true)
      [itemA, itemB] 1 (by decide) (by decide)⟩

/-- C4: every generated sequence contains exactly one trial flagged
`isCatchTrial = true`, and that trial presents the same item id on both
sides. -/
theorem catch_trial_unique (ρ1 ρ2 : Nat → Nat) (pick : Nat)
    (coins : Nat → Bool) (products : List Product) (nPairs : Nat) :
    ((generateTrials ρ1 ρ2 pick coins products nPairs).filter
        (fun t => t.isCatchTrial)).length = 1 ∧
      ∀ t ∈ generateTrials ρ1 ρ2 pick coins products nPairs,
        t.isCatchTrial = true → t.left.id = t.right.id := by
  refine ⟨?_, fun t ht hc => generateTrials_catch_ids ht hc⟩
  rw [generateTrials_eq, ← List.countP_eq_length_filter,
    mapTrials_countP_catch,
    (shuffleArray_perm (ρ := ρ2) _).countP_eq,
    List.countP_append]
  have h0 : ((shuffleArray ρ1 (allPairs products)).take nPairs).countP
      (fun e => e.isCatchTrial) = 0 := by
    rw [List.countP_eq_zero]
    intro e he
    simp [(mem_allPairs (mem_regular he)).2.2]
  rw [h0]
  simp [catchEntry, List.countP_cons]

/-- C4 witness: the concrete two-item run has exactly one catch trial. -/
theorem catch_trial_unique_witness :
    ((generateTrials (fun _ => 0) (fun _ => 0) 0 (fun _ => true)
        [itemA, itemB] 1).filter (fun t => t.isCatchTrial)).length = 1 :=
  (catch_trial_unique (fun _ => 0) (fun _ => 0) 0 (fun _ => true)
    [itemA, itemB] 1).1

/-- C7: when the catalog ids are pairwise distinct, no non-catch trial is a
self-comparison: its two item ids differ. -/
theorem no_self_comparison (ρ1 ρ2 : Nat → Nat) (pick : Nat)
    (coins : Nat → Bool) (products : List Product) (nPairs : Nat)
    (hids : (products.map Product.id).Nodup) :
    ∀ t ∈ generateTrials ρ1 ρ2 pick coins products nPairs,
      t.isCatchTrial = false → t.left.id ≠ t.right.id := by
  intro t ht hnc
  obtain ⟨c, e, rfl, hcase⟩ := generateTrials_entry_decomp ht
  rw [mkTrial_isCatchTrial] at hnc
  rcases hcase with ⟨hmem, _⟩ | rfl
  · have hne := allPairs_id_ne hids e hmem
    cases c
    · rw [mkTrial_left, mkTrial_right]
      simpa using Ne.symm hne
    · rw [mkTrial_left, mkTrial_right]
      simpa using hne
  · rw [catchEntry] at hnc
    cases hnc

/-- C7 witness: the regular trial of a concrete two-item run compares two
distinct ids. -/
theorem no_self_comparison_witness :
    ((([itemA, itemB] : List Product).map Product.id).Nodup ∧
        (⟨itemA, itemB, "A_B", "AB", false⟩ : Trial) ∈
          generateTrials (fun _ => 0) (fun _ => 0) 0 (fun _ => true)
            [itemA, itemB] 1) ∧
      (Trial.left ⟨itemA, itemB, "A_B", "AB", false⟩).id ≠
        (Trial.right ⟨itemA, itemB, "A_B", "AB", false⟩).id :=
  ⟨⟨by decide, by decide⟩,
    no_self_comparison (fun _ => 0) (fun _ => 0) 0 (fun _ => true)
      [itemA, itemB] 1 (by decide) ⟨itemA, itemB, "A_B", "AB", false⟩
      (by decide) (by decide)⟩

/-- C2 counterexample: with the pairwise-distinct ids
`"a", "b_c", "a_b", "c"` (underscores inside ids) and `nPairs = 6 = C(4,2)`,
a generated sequence repeats the pair key `"a_b_c"` among its regular
trials: the claim fails as stated. -/
theorem no_duplicate_pairs_counterexample :
    (([itemUa, itemUbc, itemUab, itemUc] : List Product).map Product.id).Nodup ∧
      6 ≤ Nat.choose ([itemUa, itemUbc, itemUab, itemUc] : List Product).length 2 ∧
      ¬ ((((generateTrials (fun _ => 0) (fun _ => 0) 0 (fun _ => true)
          [itemUa, itemUbc, itemUab, itemUc] 6).filter
            (fun t => !t.isCatchTrial)).map Trial.pairId).Nodup) := by
  refine ⟨by decide, by decide, by decide⟩

/-- C2 (amended): additionally assuming no catalog id contains the
underscore character — the join character of `pairKey` — the pair keys of
the regular (non-catch) trials of a generated sequence are pairwise
distinct. -/
theorem no_duplicate_pairs (ρ1 ρ2 : Nat → Nat) (pick : Nat)
    (coins : Nat → Bool) (products : List Product) (nPairs : Nat)
    (hids : (products.map Product.id).Nodup)
    (hu : ∀ p ∈ products, '_' ∉ p.id.data)
    (_h2 : 2 ≤ products.length)
    (_hk : nPairs ≤ Nat.choose products.length 2) :
    (((generateTrials ρ1 ρ2 pick coins products nPairs).filter
        (fun t => !t.isCatchTrial)).map Trial.pairId).Nodup := by
  rw [generateTrials_eq, mapTrials_filter_pairId]
  have hperm := ((shuffleArray_perm ρ2
    ((shuffleArray ρ1 (allPairs products)).take nPairs ++
      [catchEntry pick products])).filter
        (fun e => !e.isCatchTrial)).map entryPairId
  rw [hperm.nodup_iff]
  rw [List.filter_append]
  have hc : ([catchEntry pick products].filter (fun e => !e.isCatchTrial)) = [] := by
    simp [catchEntry]
  have hr : (((shuffleArray ρ1 (allPairs products)).take nPairs).filter
      (fun e => !e.isCatchTrial)) =
        (shuffleArray ρ1 (allPairs products)).take nPairs := by
    rw [List.filter_eq_self]
    intro e he
    simp [(mem_allPairs (mem_regular he)).2.2]
  rw [hc, hr, List.append_nil]
  have hsub := (List.take_sublist nPairs
    (shuffleArray ρ1 (allPairs products))).map entryPairId
  exact hsub.nodup
    (((shuffleArray_perm ρ1 (allPairs products)).map entryPairId).nodup_iff.2
      (allPairs_keys_nodup hids hu))

/-- C2 (amended) witness: with the underscore-free two-item catalog the
regular pair keys of a concrete run are distinct. -/
theorem no_duplicate_pairs_witness :
    ((([itemA, itemB] : List Product).map Product.id).Nodup ∧
        (∀ p ∈ ([itemA, itemB] : List Product), '_' ∉ p.id.data) ∧
        2 ≤ ([itemA, itemB] : List Product).length ∧
        1 ≤ Nat.choose ([itemA, itemB] : List Product).length 2) ∧
      (((generateTrials (fun _ => 0) (fun _ => 0) 0 (fun _ => true)
          [itemA, itemB] 1).filter
            (fun t => !t.isCatchTrial)).map Trial.pairId).Nodup :=
  ⟨⟨by decide, by decide, by decide, by decide⟩,
    no_duplicate_pairs (fun _ => 0) (fun _ => 0) 0 (fun _ => true)
      [itemA, itemB] 1 (by decide) (by decide) (by decide) (by decide)⟩

/-- C5 counterexample: with a two-item catalog (`C(2,2) = 1` available
pair) and `nPairs = 5`, sequence generation does not fail — it returns a
sequence — so the claimed `InvalidConfigurationError` is never raised. -/
theorem nPairs_guard_counterexample :
    Nat.choose ([itemA, itemB] : List Product).length 2 < 5 ∧
      initTrials (fun _ => 0) (fun _ => 0) 0 (fun _ => true) [itemA, itemB] 5 =
        .ok (generateTrials (fun _ => 0) (fun _ => 0) 0 (fun _ => true)
          [itemA, itemB] 5) :=
  ⟨by decide, rfl⟩

/-- C5 (amended): when `nPairs` exceeds `C(n, 2)`, generation does not
fail; the `slice` silently clamps, returning a sequence whose regular
trials are all `C(n, 2)` pairs, of total length `C(n, 2) + 1`. -/
theorem nPairs_overflow_clamps (ρ1 ρ2 : Nat → Nat) (pick : Nat)
    (coins : Nat → Bool) (products : List Product) (nPairs : Nat)
    (h2 : 2 ≤ products.length)
    (hk : Nat.choose products.length 2 < nPairs) :
    initTrials ρ1 ρ2 pick coins products nPairs =
        .ok (generateTrials ρ1 ρ2 pick coins products nPairs) ∧
      (generateTrials ρ1 ρ2 pick coins products nPairs).length =
        Nat.choose products.length 2 + 1 := by
  constructor
  · rw [initTrials, if_neg (by omega)]
  · rw [generateTrials_length, Nat.min_eq_right (le_of_lt hk)]

/-- C5 (amended) witness: the clamping at the concrete overflowing
configuration. -/
theorem nPairs_overflow_clamps_witness :
    (2 ≤ ([itemA, itemB] : List Product).length ∧
        Nat.choose ([itemA, itemB] : List Product).length 2 < 5) ∧
      (generateTrials (fun _ => 0) (fun _ => 0) 0 (fun _ => true)
          [itemA, itemB] 5).length =
        Nat.choose ([itemA, itemB] : List Product).length 2 + 1 :=
  ⟨⟨by decide, by decide⟩,
    (nPairs_overflow_clamps (fun _ => 0) (fun _ => 0) 0 (fun _ => true)
      [itemA, itemB] 5 (by decide) (by decide)).2⟩

/-- C6: a catalog of fewer than 2 items makes sequence generation fail
with the configuration error before any trial is generated. -/
theorem insufficient_stimuli_fails (ρ1 ρ2 : Nat → Nat) (pick : Nat)
    (coins : Nat → Bool) (products : List Product) (nPairs : Nat)
    (h : products.length < 2) :
    initTrials ρ1 ρ2 pick coins products nPairs =
      .error .insufficientStimuli := by
  rw [initTrials, if_pos h]

/-- C6 witness: the one-item catalog is rejected. -/
theorem insufficient_stimuli_fails_witness :
    ([itemA] : List Product).length < 2 ∧
      initTrials (fun _ => 0) (fun _ => 0) 0 (fun _ => true) [itemA] 0 =
        .error .insufficientStimuli :=
  ⟨by decide,
    insufficient_stimuli_fails (fun _ => 0) (fun _ => 0) 0 (fun _ => true)
      [itemA] 0 (by decide)⟩

/-- C8: the session state machine only moves forward — a recorded response
from trial `i` goes to trial `i + 1`, or to `Finished` when the sequence is
exhausted; the `popstate` (back-navigation) handler leaves the session
state unchanged; and no event sends an in-progress session to an earlier
trial index. -/
theorem session_moves_forward (len i : Nat) (o : NetOutcome) :
    (i + 1 < len →
        step len (.inProgress i) (.recordedResponse o) = .inProgress (i + 1)) ∧
      (len ≤ i + 1 →
        step len (.inProgress i) (.recordedResponse o) = .finished) ∧
      (∀ s, step len s .popstate = s) ∧
      (∀ j k e, step len (.inProgress j) e = .inProgress k → j ≤ k) := by
  refine ⟨?_, ?_, ?_, ?_⟩
  · intro h
    cases o <;> simp [step, nextClick, recordTrialToServer, fetchTrial, h]
  · intro h
    have h' : ¬ (i + 1 < len) := by omega
    cases o <;> simp [step, nextClick, recordTrialToServer, fetchTrial, h']
  · intro s
    cases s <;> rfl
  · intro j k e h
    cases e with
    | start => simp [step] at h; omega
    | popstate => simp [step] at h; omega
    | recordedResponse o =>
      cases o <;>
        simp only [step, nextClick, recordTrialToServer, fetchTrial] at h <;>
        by_cases hj : j + 1 < len <;> simp [hj] at h <;> omega

/-- C8 witness: from trial 0 of a 2-trial session, a recorded response
advances to trial 1. -/
theorem session_moves_forward_witness :
    0 + 1 < 2 ∧
      step 2 (.inProgress 0) (.recordedResponse .success) = .inProgress (0 + 1) :=
  ⟨by decide, (session_moves_forward 2 0 .success).1 (by decide)⟩

/-- C9: a `nextBtn` click advances the session identically whether the
persistence call succeeds or fails — the progression is a pure function
of the trial index, a rejected `fetch` is caught and logged inside
`recordTrialToServer` (it returns normally instead of raising), and the
handler therefore never aborts before the increment. -/
theorem persistence_fire_and_forget (len i : Nat) (o : NetOutcome) :
    nextClick len o i = nextClick len .success i ∧
      nextClick len o i =
        .ok (if i + 1 < len then Phase.inProgress (i + 1) else Phase.finished) ∧
      recordTrialToServer .failure = .ok true := by
  cases o <;> exact ⟨rfl, rfl, rfl⟩

